import Mathlib

/-!
Verification of the domain-aware-routing DNS policy engine.

This file shallowly embeds the data model and the operations of the
`dns_policy` package (`trie.py`, `forward.py`, `config.py`,
`policy_service.py`) and proves or refutes the specification's claims
about them.

Python dictionaries holding rules are modelled as insertion-ordered
association lists (`Dict`), tries as the nested inductive `TrieNode`,
and fallible operations return `Except`.
-/

namespace DnsPolicy

/-- A value stored in a rule dictionary: Python strings, booleans and
lists of strings (`upstream`). -/
inductive Val : Type where
  | s (v : String)
  | b (v : Bool)
  | ls (v : List String)
deriving DecidableEq, Repr

/-- A Python `dict` with string keys, modelled as an insertion-ordered
association list (keys unique by construction of the operations). -/
abbrev Dict := List (String × Val)

/-- `d.get(k)` / `d[k]`. -/
def dget? (d : Dict) (k : String) : Option Val :=
  (d.find? (fun p => p.1 == k)).map (·.2)

/-- `k in d`. -/
def dhas (d : Dict) (k : String) : Bool :=
  (dget? d k).isSome

/-- `del d[k]` (no-op when the key is absent; the code only deletes
present keys). -/
def derase (d : Dict) (k : String) : Dict :=
  d.filter (fun p => p.1 != k)

/-- `d[k] = v`: update in place when the key exists, append otherwise
(CPython preserves insertion order on update). -/
def dset (d : Dict) (k : String) (v : Val) : Dict :=
  if dhas d k then d.map (fun p => if p.1 == k then (k, v) else p)
  else d ++ [(k, v)]

/-- `d1 | d2` / `d1 |= d2`: start from `d1`, set every key of `d2` in
order (later keys win). -/
def dunion (d1 d2 : Dict) : Dict :=
  d2.foldl (fun acc p => dset acc p.1 p.2) d1

/-- Python truthiness of a dict: `{}` is falsy. -/
def truthy (d : Dict) : Bool := !d.isEmpty

/-- Truthiness of `Optional[Dict]`: `None` and `{}` are falsy. -/
def truthyOpt : Option Dict → Bool
  | none => false
  | some d => truthy d

/-- A rule is a dict (`{"domain": …, "block": …, "route": …, …}`). -/
abbrev Rule := Dict

/-- `TrieNode` from `trie.py`: children keyed by one label, and an
optional rule. -/
inductive TrieNode : Type where
  | mk (children : List (String × TrieNode)) (rule : Option Rule)

/-- The `children` attribute. -/
def TrieNode.children : TrieNode → List (String × TrieNode)
  | .mk c _ => c

/-- The `rule` attribute. -/
def TrieNode.rule : TrieNode → Option Rule
  | .mk _ r => r

/-- A fresh `TrieNode()`. -/
def TrieNode.empty : TrieNode := .mk [] none

/-- `cur.children[label]` lookup. -/
def findChild (cur : TrieNode) (label : String) : Option TrieNode :=
  (cur.children.find? (fun p => p.1 == label)).map (·.2)

/-- `cur.children[label] = node`. -/
def setChild (cur : TrieNode) (label : String) (node : TrieNode) : TrieNode :=
  if (cur.children.find? (fun p => p.1 == label)).isSome then
    .mk (cur.children.map (fun p => if p.1 == label then (label, node) else p)) cur.rule
  else
    .mk (cur.children ++ [(label, node)]) cur.rule

/-- `str.split(sep)` over the character list (same semantics as
Python's `split` on a single-character separator: `""` gives `[""]`,
adjacent separators give empty fields). -/
def splitChAux (sep : Char) (cs : List Char) (acc : List Char) : List String :=
  match cs with
  | [] => [String.mk acc.reverse]
  | c :: rest =>
    if c = sep then String.mk acc.reverse :: splitChAux sep rest []
    else splitChAux sep rest (c :: acc)

/-- `domain.split(".")[::-1]`: labels of a domain, TLD first. -/
def labelsOf (domain : String) : List String :=
  (splitChAux '.' domain.data []).reverse

/-- `if "*" in current.children: wildcard_rule =
current.children["*"].rule` — the wildcard-candidate update performed
at each loop level. -/
def wildUpd (cur : TrieNode) (w : Option Rule) : Option Rule :=
  match findChild cur "*" with
  | some wc => wc.rule
  | none => w

/-- `current = current.children[label]; if current.rule: matched_rule =
current.rule; exact_len = i + 1` — the exact-candidate update on
descending into child `c` at index `i`. -/
def exactUpd (c : TrieNode) (m : Option Rule) (el i : Nat) :
    Option Rule × Nat :=
  match c.rule with
  | some r => if truthy r then (some r, i + 1) else (m, el)
  | none => (m, el)

/-- The body of the `for i, label in enumerate(labels)` loop of
`DomainTrie.lookup`.  State: current node, remaining labels, the
`matched_rule`, `wildcard_rule` and `exact_len` variables, and the
running index `i`.  Returns the final values of the three variables
together with the list of labels actually descended (the path to the
`current` node where the loop stopped). -/
def lookL (cur : TrieNode) (labels : List String) (m w : Option Rule)
    (el i : Nat) : Option Rule × Option Rule × Nat × List String :=
  match labels with
  | [] => (m, w, el, [])
  | l :: ls =>
    match findChild cur l with
    | some c =>
      match lookL c ls (exactUpd c m el i).1 (wildUpd cur w)
          (exactUpd c m el i).2 (i + 1) with
      | (rm, rwc, rel, rpath) => (rm, rwc, rel, l :: rpath)
    | none => (m, wildUpd cur w, el, [])

/-- The return precedence at the end of `DomainTrie.lookup`, applied
to the loop's final state: full exact match first, then the wildcard
candidate, then the empty rule. -/
def lookupFin (depth : Nat) :
    Option Rule × Option Rule × Nat × List String →
    Except Unit (Rule × List String)
  | (m, w, el, path) =>
    if truthyOpt m && (depth == el) then .ok (m.getD [], path)
    else if truthyOpt w then .ok (w.getD [], path)
    else .ok ([], path)

/-- `DomainTrie.lookup`: returns the matched rule and the path (from
the root) of the `current` node the loop stopped at; raises
(`.error`) on an empty domain. -/
def lookup (t : TrieNode) (domain : String) :
    Except Unit (Rule × List String) :=
  if domain == "" then .error () else
    lookupFin (labelsOf domain).length (lookL t (labelsOf domain) none none 0 0)

/-- The rule component of a successful lookup (`[]` on error, which the
theorems exclude by hypothesis). -/
def lookupRule (t : TrieNode) (domain : String) : Rule :=
  match lookup t domain with
  | .ok (r, _) => r
  | .error _ => []

/-- The label-path part of `DomainTrie.insert`: create missing nodes
along the path and set the leaf rule. -/
def insertPath (cur : TrieNode) (labels : List String) (r : Rule) : TrieNode :=
  match labels with
  | [] => .mk cur.children (some r)
  | l :: ls =>
    let child := (findChild cur l).getD TrieNode.empty
    setChild cur l (insertPath child ls r)

/-- `DomainTrie.insert` (startup batch insertion). -/
def insert (t : TrieNode) (domain : String) (r : Rule) : TrieNode :=
  insertPath t (labelsOf domain) r

/-- `DNSForwarder.build_domain_trie`: insert every rule at its
`domain` key (the key is always present in parsed rules). -/
def buildDomainTrie (t : TrieNode) (rules : List Rule) : TrieNode :=
  rules.foldl (fun acc r =>
    match dget? r "domain" with
    | some (.s d) => insert acc d r
    | _ => acc) t

/-- The merged rule computed by `DomainTrie._cow_update`:
deep-copy the existing rule, delete the directive that conflicts with
the incoming one, then `new_rule |= rule`. -/
def cowMergedRule (existing r : Rule) : Rule :=
  let base :=
    if dhas existing "block" && dhas r "route" then derase existing "block"
    else if dhas existing "route" && dhas r "block" then derase existing "route"
    else existing
  dunion base r

/-- Replace the rule stored at the node reached by `path` (the in-place
`node.rule = new_rule` assignment of `_cow_update`; `path` comes from
`lookup`, so the node exists whenever this is called). -/
def updateRuleAt (cur : TrieNode) (path : List String) (r : Rule) : TrieNode :=
  match path with
  | [] => .mk cur.children (some r)
  | l :: ls =>
    match findChild cur l with
    | some c => setChild cur l (updateRuleAt c ls r)
    | none => cur

/-- `DomainTrie.cow_insert`.  Returns the resulting trie together with
a flag recording whether the root pointer was swapped (`self.root =
new_root` under the lock): `true` on the deep-copy path, `false` on
the `_cow_update` path, which instead assigns the merged rule to the
matched node of the live trie. -/
def cowInsert (t : TrieNode) (domain : String) (r : Rule) :
    Except Unit (TrieNode × Bool) :=
  match lookup t domain with
  | .error e => .error e
  | .ok (existing, path) =>
    -- `if existing_rule and node:` — `node` is always a TrieNode object,
    -- so the test is the truthiness of `existing_rule`.
    if truthy existing then
      .ok (updateRuleAt t path (cowMergedRule existing r), false)
    else
      .ok (insertPath t (labelsOf domain) r, true)

/-- `DomainTrie._domain_exits`: the full label path exists and its
node's rule `is not None`. -/
def domainExists (t : TrieNode) (domain : String) : Bool :=
  go t (labelsOf domain)
where
  go (cur : TrieNode) : List String → Bool
    | [] => cur.rule.isSome
    | l :: ls =>
      match findChild cur l with
      | some c => go c ls
      | none => false

/-- `DomainTrie.cow_remove`.  `.error` models the raised exceptions
(missing domain and the `rule is not supposed to be None` guard);
`.ok (found, t')` gives the not-found flag and the resulting trie
(unchanged when `found = false`, since the root swap only happens on
the success path). -/
def cowRemove (t : TrieNode) (domain : String) (directive : Option String) :
    Except Unit (Bool × TrieNode) :=
  if !domainExists t domain then .error ()
  else
    match go t (labelsOf domain) directive with
    | .error e => .error e
    | .ok none => .ok (false, t)
    | .ok (some t') => .ok (true, t')
where
  /-- Walk the deep copy; `none` models the paths that `return False`
  before the swap. -/
  go (cur : TrieNode) (labels : List String) (directive : Option String) :
      Except Unit (Option TrieNode) :=
    match labels with
    | [] =>
      match cur.rule with
      | none => .error ()   -- `raise Exception("rule is not supposed to be None")`
      | some r =>
        match directive with
        | none => .ok (some (.mk cur.children none))
        | some k =>
          if dhas r k then
            let r' := derase r k
            let remaining := (r'.map (·.1)).filter (fun s => s != "domain" && s != "dbr")
            if remaining.isEmpty then .ok (some (.mk cur.children none))
            else .ok (some (.mk cur.children (some r')))
          else .ok none   -- `return False`
    | l :: ls =>
      match findChild cur l with
      | none => .ok none   -- `return False`
      | some c =>
        match go c ls directive with
        | .error e => .error e
        | .ok none => .ok none
        | .ok (some c') => .ok (some (setChild cur l c'))

/-- `DomainTrie.purge_trie`. -/
def purgeTrie (_t : TrieNode) : TrieNode := TrieNode.empty

/-! ### Specification-side lookup model (for the refinement claim C1)

`specLookup` is written from the spec's words, to be compared with the
`lookup` translated from the source. -/

/-- The rule stored at exactly this label path (`None` when the path
does not exist). -/
def ruleAt (cur : TrieNode) (labels : List String) : Option Rule :=
  match labels with
  | [] => cur.rule
  | l :: ls =>
    match findChild cur l with
    | some c => ruleAt c ls
    | none => none

/-- Modelled from the spec: the wildcard rule visible at one node — the
`*` child's rule when that child exists and actually bears a non-empty
rule. -/
def wildHere (cur : TrieNode) : List Rule :=
  match findChild cur "*" with
  | some wc =>
    match wc.rule with
    | some r => if truthy r then [r] else []
    | none => []
  | none => []

/-- Modelled from the spec: the wildcard rules seen during traversal —
at each level visited (including the node where traversal stops), the
`*` child's rule when that child exists and actually bears a non-empty
rule; shallowest first. -/
def wildSeen (cur : TrieNode) (labels : List String) : List Rule :=
  match labels with
  | [] => []
  | l :: ls =>
    match findChild cur l with
    | some c => wildHere cur ++ wildSeen c ls
    | none => wildHere cur

/-- Modelled from the spec: return precedence of `lookup(D)` — the
full-path exact rule when one is stored there; otherwise the deepest
wildcard rule seen along the traversed path; otherwise the empty
rule. -/
def specLookup (t : TrieNode) (domain : String) : Rule :=
  match ruleAt t (labelsOf domain) with
  | some r =>
    if truthy r then r
    else ((wildSeen t (labelsOf domain)).getLast?).getD []
  | none => ((wildSeen t (labelsOf domain)).getLast?).getD []

/-- Every `*` child encountered while traversing this label path bears
a non-empty rule (the side condition under which the source lookup
and `specLookup` agree). -/
def wildStarOkOnPath (cur : TrieNode) (labels : List String) : Bool :=
  match labels with
  | [] => true
  | l :: ls =>
    (match findChild cur "*" with
     | some wc => truthyOpt wc.rule
     | none => true)
    && (match findChild cur l with
        | some c => wildStarOkOnPath c ls
        | none => true)

/-! ### Directive-exclusivity invariant (C5) -/

/-- A rule does not carry both `block` and `route`. -/
def ruleOk (r : Rule) : Bool := !(dhas r "block" && dhas r "route")

/-- `ruleOk` lifted to `Optional[Dict]`. -/
def ruleOkOpt : Option Rule → Bool
  | none => true
  | some r => ruleOk r

mutual
/-- Every rule stored anywhere in the trie satisfies `ruleOk`. -/
def trieOk : TrieNode → Bool
  | .mk cs r => ruleOkOpt r && trieOkL cs

/-- `trieOk` over a child list. -/
def trieOkL : List (String × TrieNode) → Bool
  | [] => true
  | (_, c) :: rest => trieOk c && trieOkL rest
end

/-! ### Configuration rules and the startup merge (`config.py`) -/

/-- A parsed `block=/domain/` line (`_parse_block_line`). -/
def blockRule (domain : String) : Rule :=
  [("domain", .s domain), ("block", .s ""), ("dbr", .b true)]

/-- A parsed `route=/domain/gw` line (`_parse_route_line`). -/
def routeRule (domain gw : String) : Rule :=
  [("domain", .s domain), ("route", .s gw), ("dbr", .b true)]

/-- A parsed `server=/domain/ip` line (`_parse_domain_server`). -/
def serverRule (domain upstream : String) : Rule :=
  [("domain", .s domain), ("upstream", .ls [upstream])]

/-- A parsed `address=/domain/ip` line (`_parse_address_line`). -/
def addressRule (domain ip : String) : Rule :=
  [("domain", .s domain), ("address", .s ip)]

/-- One step of `ConfigManager._merge_rules`: update the first rule
with the same `domain` in place (`|=`), else append. -/
def mergeInto : List Rule → Rule → List Rule
  | [], r => [r]
  | ex :: rest, r =>
    if dget? r "domain" == dget? ex "domain" then dunion ex r :: rest
    else ex :: mergeInto rest r

/-- `ConfigManager._merge_rules` over the concatenation
`server_rule + static_rule + block_rule + route_rule`. -/
def mergeRules (allLists : List Rule) : List Rule :=
  allLists.foldl mergeInto []

/-! ### DNS forwarder model (`forward.py`) -/

/-- DNS rcodes used by the forwarder. -/
inductive Rcode : Type where
  | noerror
  | nxdomain
  | servfail
deriving DecidableEq, Repr

/-- `dns.rdatatype.A`. -/
def rdA : Nat := 1

/-- `dns.rdatatype.AAAA`. -/
def rdAAAA : Nat := 28

/-- `self.MAX_DNS_TTL = 2_147_483_647`, the pin sentinel. -/
def MAX_DNS_TTL : Int := 2147483647

/-- An answer rrset: record type and TTL. -/
structure RRset : Type where
  rdtype : Nat
  ttl : Int
deriving DecidableEq, Repr

/-- A DNS response message (the parts the forwarder inspects). -/
structure Msg : Type where
  rcode : Rcode
  answer : List RRset
deriving DecidableEq, Repr

/-- A cache entry: `(response, ttl)`, keyed by `(qname, qtype)`. -/
abbrev CacheEntry := (String × Nat) × (Msg × Int)

/-- The forwarder state the claims depend on: the configured default
cache TTL (`self.cache_ttl`, 900 unless overridden) and the cache. -/
structure Forwarder : Type where
  cacheTtl : Int
  cache : List CacheEntry
deriving DecidableEq, Repr

/-- `self.cache.get(key)`. -/
def cacheGet (fw : Forwarder) (k : String × Nat) : Option (Msg × Int) :=
  (fw.cache.find? (fun e => e.1 == k)).map (·.2)

/-- `self.cache[key] = value`: replace in place or append. -/
def cacheSet (c : List CacheEntry) (k : String × Nat) (v : Msg × Int) :
    List CacheEntry :=
  if (c.find? (fun e => e.1 == k)).isSome then
    c.map (fun e => if e.1 == k then (k, v) else e)
  else c ++ [(k, v)]

/-- One iteration of the TTL-derivation loop of `_add_cache`:
`if rrset.rdtype == A and rrset.ttl > ttl: ttl = rrset.ttl`. -/
def ttlStep (t : Int) (rr : RRset) : Int :=
  if rr.rdtype == rdA && rr.ttl > t then rr.ttl else t

/-- `DNSForwarder._add_cache`: skip non-NOERROR responses; when no TTL
is given (the `-1` default) start from `self.cache_ttl` and raise it to
any larger A-rrset TTL. -/
def addCache (fw : Forwarder) (qname : String) (qtype : Nat) (resp : Msg)
    (ttlArg : Int) : Forwarder :=
  if resp.rcode != .noerror then fw
  else
    let ttl := if ttlArg == -1 then resp.answer.foldl ttlStep fw.cacheTtl
      else ttlArg
    { fw with cache := cacheSet fw.cache (qname, qtype) (resp, ttl) }

/-- The loop of `DNSForwarder.purge_cache`: visit each entry, deleting
those whose TTL is not the sentinel.  (The `TLRUCache` container
tolerates deleting the visited entry during iteration, so the loop is
the evident fold.) -/
def purgeLoop : List CacheEntry → List CacheEntry
  | [] => []
  | e :: rest => if e.2.2 != MAX_DNS_TTL then purgeLoop rest else e :: purgeLoop rest

/-- `DNSForwarder.purge_cache`. -/
def purgeCache (fw : Forwarder) : Forwarder :=
  { fw with cache := purgeLoop fw.cache }

/-- `DNSForwarder._forward_query` given the per-upstream outcomes
(`none` = timeout/error): first success wins, otherwise a synthesized
SERVFAIL response. -/
def forwardQuery : List (Option Msg) → Msg
  | [] => { rcode := .servfail, answer := [] }
  | some m :: _ => m
  | none :: rest => forwardQuery rest

/-- `make_NXDOMAIN_response`. -/
def makeNX : Msg := { rcode := .nxdomain, answer := [] }

/-- `dns.message.make_response(query)` with no answers (the AAAA
reply). -/
def emptyResponse : Msg := { rcode := .noerror, answer := [] }

/-- The outcome of one `handle_request` invocation: the responses sent
to the client in order, the forwarder state after it, and whether an
exception escaped to the outer handler. -/
structure HandleResult : Type where
  sends : List Msg
  fw : Forwarder
  errored : Bool
deriving DecidableEq, Repr

/-- `DNSForwarder.handle_request` after wire parsing, for a query
`(qname, qtype)`:  trie lookup, AAAA suppression, cache consult,
block short-circuit, upstream forward (`upstreamResults` are the
per-upstream outcomes), caching, the `dbr` callback (which raises when
no callback is registered), and the final non-block send. -/
def handleRequest (fw : Forwarder) (trie : TrieNode) (qname : String)
    (qtype : Nat) (upstreamResults : List (Option Msg)) (hasCb : Bool) :
    HandleResult :=
  match lookup trie qname with
  | .error _ => { sends := [], fw := fw, errored := true }
  | .ok (rule, _) =>
    if qtype == rdAAAA then
      { sends := [emptyResponse], fw := fw, errored := false }
    else
      let afterCache : Option HandleResult :=
        match cacheGet fw (qname, qtype) with
        | some (cm, _) =>
          if !dhas rule "block" then
            some { sends := [cm], fw := fw, errored := false }
          else none
        | none => none
      match afterCache with
      | some res => res
      | none =>
        let s1 := if dhas rule "block" then [makeNX] else []
        let resp := forwardQuery upstreamResults
        let fw' := addCache fw qname qtype resp (-1)
        if dhas rule "dbr" && !hasCb then
          { sends := s1, fw := fw', errored := true }
        else
          let s2 := if !dhas rule "block" then [resp] else []
          { sends := s1 ++ s2, fw := fw', errored := false }

/-! ### Policy service (`policy_service.py`) -/

/-- One dotted-quad octet per CPython `ipaddress._parse_octet`: 1–3
ASCII digits, no leading zero (unless the octet is `0`), value ≤ 255. -/
def octetOk (s : String) : Bool :=
  let cs := s.data
  !cs.isEmpty && cs.all Char.isDigit && cs.length ≤ 3 &&
    !(cs.length > 1 && cs.head? == some '0') &&
    cs.foldl (fun a c => a * 10 + (c.toNat - '0'.toNat)) 0 ≤ 255

/-- `ipaddress.IPv4Address` acceptance: exactly four valid octets. -/
def isValidIPv4 (s : String) : Bool :=
  let parts := splitChAux '.' s.data []
  parts.length == 4 && parts.all octetOk

/-- One IPv6 hextet per CPython `ipaddress._parse_hextet`: 1–4 hex
digits. -/
def hextetOk (s : String) : Bool :=
  let cs := s.data
  !cs.isEmpty && cs.length ≤ 4 &&
    cs.all (fun c => c.isDigit || ('a' ≤ c && c ≤ 'f') || ('A' ≤ c && c ≤ 'F'))

/-- The colon-separated parts of an IPv6 address, with a trailing
embedded IPv4 address validated and replaced by its two hextets
(validity is all that matters downstream, so `"0", "0"` stand in). -/
def ipv6Parts (addr : String) : Option (List String) :=
  let parts := splitChAux ':' addr.data []
  if parts.length < 3 then none
  else
    match parts.getLast? with
    | some last =>
      if last.data.contains '.' then
        if isValidIPv4 last then some (parts.dropLast ++ ["0", "0"])
        else none
      else some parts
    | none => none

/-- `ipaddress.IPv6Address` acceptance (scope id excluded), following
CPython `_ip_int_from_string`: at most one `::`, a leading or trailing
`:` only as part of `::`, at most 8 hextets with at least one skipped
by `::`, exactly 8 otherwise. -/
def ipv6AddrOk (addr : String) : Bool :=
  match ipv6Parts addr with
  | none => false
  | some parts =>
    if parts.length > 9 then false
    else
      let inner := (parts.drop 1).dropLast
      let emptyCount := (inner.filter (fun p => p.data.isEmpty)).length
      if 2 ≤ emptyCount then false
      else if emptyCount == 1 then
        let si := ((inner.findIdx? (fun p => p.data.isEmpty)).getD 0) + 1
        let firstEmpty := (parts.head?.map (fun p => p.data.isEmpty)).getD true
        let lastEmpty := (parts.getLast?.map (fun p => p.data.isEmpty)).getD true
        let hiOk := !firstEmpty || si == 1
        let loOk := !lastEmpty || parts.length - si - 1 == 1
        let hi := if firstEmpty then 0 else si
        let lo := if lastEmpty then 0 else parts.length - si - 1
        hiOk && loOk && hi + lo ≤ 7 &&
          (parts.take hi).all hextetOk &&
          (parts.drop (parts.length - lo)).all hextetOk
      else
        parts.length == 8 && parts.all hextetOk

/-- `ipaddress.IPv6Address` acceptance including the optional
`%scope_id` suffix (non-empty, no further `%`). -/
def isValidIPv6 (s : String) : Bool :=
  match splitChAux '%' s.data [] with
  | [addr] => ipv6AddrOk addr
  | [addr, scope] => !scope.data.isEmpty && ipv6AddrOk addr
  | _ => false

/-- `PolicyService._is_valid_ip`: `ipaddress.ip_address(ip)` succeeds
exactly when the string parses as IPv4 or as IPv6. -/
def isValidIp (s : String) : Bool :=
  isValidIPv4 s || isValidIPv6 s

/-- One domain label check from `PolicyService._is_valid_domain`. -/
def labelOk (l : String) : Bool :=
  let cs := l.data
  !cs.isEmpty && cs.length ≤ 63 &&
    cs.all (fun c => c.isAlphanum || c == '-') &&
    cs.head? != some '-' && cs.getLast? != some '-'

/-- `PolicyService._is_valid_domain`: length ≤ 253, an optional
leading `*.`, and every label alphanumeric-or-hyphen without leading
or trailing hyphen. -/
def isValidDomain (domain : String) : Bool :=
  if domain.data.length > 253 then false
  else
    let d : List Char :=
      match domain.data with
      | '*' :: '.' :: rest => rest
      | other => other
    (splitChAux '.' d []).all labelOk

/-- `PolicyService._validate_rule_params`. -/
def validateRuleParams (directive domain value : String) : Bool :=
  if domain.data.isEmpty || !isValidDomain domain then false
  else if !(directive == "block" || directive == "route" ||
      directive == "server" || directive == "address") then false
  else if directive == "block" then true
  else isValidIp value

/-- `PolicyService._create_rule_dict` (REST `value`s are strings, so
`server` takes the singleton-list branch). -/
def createRuleDict (directive domain value : String) : Rule :=
  let rule : Rule := [("domain", .s domain)]
  if directive == "block" then rule ++ [("block", .s ""), ("dbr", .b true)]
  else if directive == "route" then rule ++ [("route", .s value), ("dbr", .b true)]
  else if directive == "server" then rule ++ [("upstream", .ls [value])]
  else if directive == "address" then rule ++ [("address", .s value)]
  else rule

/-- `PolicyService.add_rule`: validate, then `cow_insert` the created
rule (the static-cache side effect is outside the trie state modelled
here).  `.error` would model a raised exception propagating to the
HTTP 500 handler; it cannot occur for a validated domain. -/
def addRule (t : TrieNode) (directive domain value : String) :
    Except Unit (Bool × TrieNode) :=
  if !validateRuleParams directive domain value then .ok (false, t)
  else
    match cowInsert t domain (createRuleDict directive domain value) with
    | .ok (t', _) => .ok (true, t')
    | .error e => .error e

/-- `PolicyService.remove_rule`: `cow_remove` with the raised
exception caught and turned into a not-found `False` (the cache
invalidation on success is outside the trie state modelled here). -/
def removeRule (t : TrieNode) (domain : String) (directive : Option String) :
    Bool × TrieNode :=
  match cowRemove t domain directive with
  | .ok (found, t') => (found, t')
  | .error _ => (false, t)

/-! ### Atomic-commit trace model for concurrent lookups (C2)

In the cooperative event loop, `lookup` runs without suspension
points, and each mutation becomes visible in a single atomic
assignment (the root swap of the deep-copy path, or the one
`node.rule = new_rule` store of the update path).  A schedule is a
sequence of atomic events; lookups read the state current at their
point in the schedule. -/

/-- A runtime trie mutation. -/
inductive RtOp : Type where
  | rins (d : String) (r : Rule)
  | rrem (d : String) (dir : Option String)

/-- The committed effect of one mutation (exceptions leave the trie
unchanged). -/
def applyRt (t : TrieNode) : RtOp → TrieNode
  | .rins d r =>
    match cowInsert t d r with
    | .ok p => p.1
    | .error _ => t
  | .rrem d dir =>
    match cowRemove t d dir with
    | .ok p => p.2
    | .error _ => t

/-- A schedule event: a mutation's atomic commit, or a lookup. -/
inductive Ev : Type where
  | commit (o : RtOp)
  | query (d : String)

/-- Run a schedule, collecting each lookup's observation. -/
def runTrace : TrieNode → List Ev → List (String × Rule)
  | _, [] => []
  | t, .commit o :: evs => runTrace (applyRt t o) evs
  | t, .query d :: evs => (d, lookupRule t d) :: runTrace t evs

/-- The committed trie states of a schedule: the initial trie and the
state after each commit. -/
def traceStates : TrieNode → List Ev → List TrieNode
  | t, [] => [t]
  | t, .commit o :: evs => t :: traceStates (applyRt t o) evs
  | t, .query _ :: evs => traceStates t evs

/-- The trie produced by `cow_insert` (identity on the unreachable
empty-domain error). -/
def cowInsertTrie (t : TrieNode) (d : String) (r : Rule) : TrieNode :=
  match cowInsert t d r with
  | .ok p => p.1
  | .error _ => t

/-- Whether `cow_insert` swapped the root pointer (`none` on the
unreachable empty-domain error). -/
def cowInsertSwapped (t : TrieNode) (d : String) (r : Rule) : Option Bool :=
  match cowInsert t d r with
  | .ok p => some p.2
  | .error _ => none

/-! ## Lemmas about the cache -/

theorem find?_map_replace (c : List CacheEntry) (k : String × Nat) (v : Msg × Int)
    (h : (c.find? (fun e => e.1 == k)).isSome = true) :
    ((c.map (fun e => if e.1 == k then (k, v) else e)).find? (fun e => e.1 == k)) =
      some (k, v) := by
  induction c with
  | nil => simp at h
  | cons e rest ih =>
    rw [List.map_cons]
    cases he : (e.1 == k) with
    | true => simp [he]
    | false =>
      rw [List.find?_cons] at h
      simp only [he] at h
      simpa only [Bool.false_eq_true, if_false, List.find?_cons, he] using ih h

theorem find?_append_single (c : List CacheEntry) (k : String × Nat) (v : Msg × Int)
    (h : (c.find? (fun e => e.1 == k)).isSome = false) :
    ((c ++ [(k, v)]).find? (fun e => e.1 == k)) = some (k, v) := by
  induction c with
  | nil => simp
  | cons e rest ih =>
    cases he : (e.1 == k) with
    | true => rw [List.find?_cons, he] at h; simp at h
    | false =>
      rw [List.find?_cons, he] at h
      rw [List.cons_append, List.find?_cons, he]
      exact ih h

theorem find?_cacheSet_self (c : List CacheEntry) (k : String × Nat)
    (v : Msg × Int) : ((cacheSet c k v).find? (fun e => e.1 == k)) = some (k, v) := by
  unfold cacheSet
  cases h : (c.find? (fun e => e.1 == k)).isSome with
  | true => simpa [h] using find?_map_replace c k v h
  | false => simpa [h] using find?_append_single c k v h

theorem cacheGet_addCache_self (fw : Forwarder) (qname : String) (qtype : Nat)
    (resp : Msg) (ttlArg : Int) (h : resp.rcode = .noerror) :
    cacheGet (addCache fw qname qtype resp ttlArg) (qname, qtype) =
      some (resp,
        if ttlArg == -1 then resp.answer.foldl ttlStep fw.cacheTtl else ttlArg) := by
  unfold addCache
  simp only [h]
  simp [cacheGet, find?_cacheSet_self]

theorem ttlStep_eq_max (t : Int) (rr : RRset) :
    ttlStep t rr = if rr.rdtype = rdA then max t rr.ttl else t := by
  unfold ttlStep
  by_cases hA : rr.rdtype = rdA
  · rw [if_pos hA, beq_iff_eq.mpr hA]
    by_cases hg : rr.ttl > t
    · simp [hg, max_eq_right (le_of_lt hg)]
    · have : max t rr.ttl = t := max_eq_left (by omega)
      simp [hg, this]
  · rw [if_neg hA, beq_eq_false_iff_ne.mpr hA]
    simp

/-- The `_add_cache` TTL fold computes the maximum of the default
cache TTL and all A-rrset TTLs. -/
theorem addCache_ttl_eq_max (answer : List RRset) (init : Int) :
    answer.foldl ttlStep init =
    (answer.filterMap (fun rr => if rr.rdtype = rdA then some rr.ttl else none)).foldl
      max init := by
  induction answer generalizing init with
  | nil => rfl
  | cons rr rest ih =>
    rw [List.foldl_cons, List.filterMap_cons, ttlStep_eq_max]
    by_cases hA : rr.rdtype = rdA
    · rw [if_pos hA, if_pos hA, List.foldl_cons, ih]
    · rw [if_neg hA, if_neg hA, ih]

theorem purgeLoop_eq_filter (c : List CacheEntry) :
    purgeLoop c = c.filter (fun e => e.2.2 == MAX_DNS_TTL) := by
  induction c with
  | nil => rfl
  | cons e rest ih =>
    cases hs : (e.2.2 == MAX_DNS_TTL) with
    | true =>
      have h' : e.2.2 = MAX_DNS_TTL := beq_iff_eq.mp hs
      simp [purgeLoop, List.filter_cons, bne, hs, h', ih]
    | false =>
      have h' : ¬e.2.2 = MAX_DNS_TTL := beq_eq_false_iff_ne.mp hs
      simp [purgeLoop, List.filter_cons, bne, hs, h', ih]

/-! ## Lemmas about dict keys -/

theorem dhas_cons (k1 : String) (v : Val) (d : Dict) (k : String) :
    dhas ((k1, v) :: d) k = (k1 == k || dhas d k) := by
  unfold dhas dget?
  rw [List.find?_cons]
  cases h : (k1 == k) <;> simp [h]

theorem dhas_append (a b : Dict) (k : String) :
    dhas (a ++ b) k = (dhas a k || dhas b k) := by
  induction a with
  | nil => simp [dhas, dget?]
  | cons p rest ih =>
    obtain ⟨k1, v⟩ := p
    simp [dhas_cons, ih, Bool.or_assoc]

theorem dhas_map_replace (d : Dict) (k' : String) (v : Val) (k : String) :
    dhas (d.map (fun p => if p.1 == k' then (k', v) else p)) k = dhas d k := by
  induction d with
  | nil => rfl
  | cons p rest ih =>
    obtain ⟨k1, v1⟩ := p
    rw [List.map_cons]
    by_cases hp : k1 = k'
    · subst hp
      rw [show (if ((k1, v1).1 == k1) = true then (k1, v) else (k1, v1)) = (k1, v)
          by simp]
      rw [dhas_cons, dhas_cons, ih]
    · rw [show (if ((k1, v1).1 == k') = true then (k', v) else (k1, v1)) = (k1, v1)
          by simp [hp]]
      rw [dhas_cons, dhas_cons, ih]

theorem dhas_dset (d : Dict) (k' : String) (v : Val) (k : String) :
    dhas (dset d k' v) k = (dhas d k || k' == k) := by
  unfold dset
  by_cases hp : dhas d k' = true
  · rw [if_pos hp, dhas_map_replace]
    cases hk : (k' == k) with
    | true =>
      have : k' = k := beq_iff_eq.mp hk
      subst this
      simp [hp]
    | false => simp
  · rw [if_neg hp, dhas_append, dhas_cons]
    simp [dhas, dget?]

theorem dhas_dunion (a b : Dict) (k : String) :
    dhas (dunion a b) k = (dhas a k || dhas b k) := by
  unfold dunion
  induction b generalizing a with
  | nil => simp [dhas, dget?]
  | cons p rest ih =>
    rw [List.foldl_cons, ih, dhas_dset, dhas_cons]
    cases dhas a k <;> cases (p.1 == k) <;> cases dhas rest k <;> rfl

theorem dhas_derase (d : Dict) (k k' : String) :
    dhas (derase d k) k' = (dhas d k' && !(k' == k)) := by
  unfold derase
  induction d with
  | nil => rfl
  | cons p rest ih =>
    obtain ⟨k1, v1⟩ := p
    rw [List.filter_cons]
    cases hp : ((k1, v1).1 != k) with
    | true =>
      have h2 : k1 ≠ k := by simpa using hp
      rw [if_pos (by simp [hp]), dhas_cons, dhas_cons, ih]
      cases hq : (k1 == k') with
      | true =>
        have h1 : k1 = k' := beq_iff_eq.mp hq
        have h3 : (k' == k) = false := beq_eq_false_iff_ne.mpr (h1 ▸ h2)
        simp [h3]
      | false => simp
    | false =>
      have h1 : k1 = k := by simpa using hp
      rw [if_neg (by simp [hp]), ih, dhas_cons]
      cases hk : (k' == k) with
      | true => simp
      | false =>
        have : (k1 == k') = false := by
          subst h1
          exact beq_eq_false_iff_ne.mpr (Ne.symm (beq_eq_false_iff_ne.mp hk))
        simp [this]

/-- The conflict-resolving merge of `_cow_update` preserves directive
exclusivity whenever both inputs satisfy it. -/
theorem ruleOk_cowMergedRule (e n : Rule) (he : ruleOk e = true)
    (hn : ruleOk n = true) : ruleOk (cowMergedRule e n) = true := by
  unfold ruleOk at he hn ⊢
  unfold cowMergedRule
  cases heb : dhas e "block" <;> cases her : dhas e "route" <;>
    cases hnb : dhas n "block" <;> cases hnr : dhas n "route" <;>
      simp [heb, her, hnb, hnr] at he hn ⊢ <;>
        simp [dhas_dunion, dhas_derase, heb, her, hnb, hnr]

/-! ## Preservation of directive exclusivity by the trie operations -/

theorem trieOk_mk (cs : List (String × TrieNode)) (r : Option Rule) :
    trieOk (.mk cs r) = (ruleOkOpt r && trieOkL cs) := by
  rw [trieOk]

theorem trieOkL_cons (l : String) (c : TrieNode) (rest : List (String × TrieNode)) :
    trieOkL ((l, c) :: rest) = (trieOk c && trieOkL rest) := by
  rw [trieOkL]

theorem trieOkL_append (a b : List (String × TrieNode)) :
    trieOkL (a ++ b) = (trieOkL a && trieOkL b) := by
  induction a with
  | nil => rw [trieOkL]; simp
  | cons p rest ih =>
    obtain ⟨l, c⟩ := p
    rw [List.cons_append, trieOkL_cons, trieOkL_cons, ih, Bool.and_assoc]

theorem trieOk_of_mem {cs : List (String × TrieNode)} (h : trieOkL cs = true)
    {l : String} {c : TrieNode} (hm : (l, c) ∈ cs) : trieOk c = true := by
  induction cs with
  | nil => simp at hm
  | cons p rest ih =>
    obtain ⟨l1, c1⟩ := p
    rw [trieOkL_cons, Bool.and_eq_true] at h
    rcases List.mem_cons.mp hm with heq | hmem
    · cases heq
      exact h.1
    · exact ih h.2 hmem

theorem trieOk_findChild {cur : TrieNode} {l : String} {c : TrieNode}
    (h : trieOk cur = true) (hf : findChild cur l = some c) : trieOk c = true := by
  obtain ⟨cs, r⟩ := cur
  unfold findChild at hf
  rw [Option.map_eq_some'] at hf
  obtain ⟨p, hp, hpc⟩ := hf
  have hm := List.mem_of_find?_eq_some hp
  rw [trieOk_mk, Bool.and_eq_true] at h
  subst hpc
  exact trieOk_of_mem h.2 (show (p.1, p.2) ∈ (TrieNode.mk cs r).children by
    simpa using hm)

theorem ruleOkOpt_of_trieOk {t : TrieNode} (h : trieOk t = true) :
    ruleOkOpt t.rule = true := by
  obtain ⟨cs, r⟩ := t
  rw [trieOk_mk, Bool.and_eq_true] at h
  exact h.1

theorem trieOkL_map_replace {cs : List (String × TrieNode)} (l : String)
    {node : TrieNode} (h : trieOkL cs = true) (hn : trieOk node = true) :
    trieOkL (cs.map (fun p => if p.1 == l then (l, node) else p)) = true := by
  induction cs with
  | nil => exact h
  | cons p rest ih =>
    obtain ⟨l1, c1⟩ := p
    rw [trieOkL_cons, Bool.and_eq_true] at h
    rw [List.map_cons]
    by_cases hp : l1 = l
    · subst hp
      rw [show (if ((l1, c1).1 == l1) = true then (l1, node) else (l1, c1)) =
          (l1, node) by simp]
      rw [trieOkL_cons, hn, ih h.2, Bool.and_self]
    · rw [show (if ((l1, c1).1 == l) = true then (l, node) else (l1, c1)) =
          (l1, c1) by simp [hp]]
      rw [trieOkL_cons, h.1, ih h.2, Bool.and_self]

theorem trieOk_setChild {cur : TrieNode} (l : String) {node : TrieNode}
    (h : trieOk cur = true) (hn : trieOk node = true) :
    trieOk (setChild cur l node) = true := by
  obtain ⟨cs, r⟩ := cur
  rw [trieOk_mk, Bool.and_eq_true] at h
  unfold setChild
  split
  · rw [trieOk_mk]
    simp only [TrieNode.children, TrieNode.rule]
    rw [h.1, trieOkL_map_replace l h.2 hn]
    rfl
  · rw [trieOk_mk]
    simp only [TrieNode.children, TrieNode.rule]
    rw [h.1, trieOkL_append, h.2, trieOkL_cons, hn]
    rw [show trieOkL [] = true from rfl]
    rfl

theorem trieOk_empty : trieOk TrieNode.empty = true := by
  rw [TrieNode.empty, trieOk_mk]
  rfl

theorem trieOk_insertPath : ∀ (labels : List String) (cur : TrieNode) (r : Rule),
    trieOk cur = true → ruleOk r = true → trieOk (insertPath cur labels r) = true := by
  intro labels
  induction labels with
  | nil =>
    intro cur r h hr
    obtain ⟨cs, r0⟩ := cur
    rw [insertPath, trieOk_mk]
    simp only [TrieNode.children]
    rw [trieOk_mk, Bool.and_eq_true] at h
    rw [h.2, show ruleOkOpt (some r) = ruleOk r from rfl, hr]
    rfl
  | cons l ls ih =>
    intro cur r h hr
    rw [insertPath]
    have hchild : trieOk ((findChild cur l).getD TrieNode.empty) = true := by
      cases hf : findChild cur l with
      | some c => simpa using trieOk_findChild h hf
      | none => simpa using trieOk_empty
    exact trieOk_setChild l h (ih _ r hchild hr)

theorem trieOk_updateRuleAt : ∀ (path : List String) (cur : TrieNode) (r : Rule),
    trieOk cur = true → ruleOk r = true → trieOk (updateRuleAt cur path r) = true := by
  intro path
  induction path with
  | nil =>
    intro cur r h hr
    obtain ⟨cs, r0⟩ := cur
    rw [updateRuleAt, trieOk_mk]
    simp only [TrieNode.children]
    rw [trieOk_mk, Bool.and_eq_true] at h
    rw [h.2, show ruleOkOpt (some r) = ruleOk r from rfl, hr]
    rfl
  | cons l ls ih =>
    intro cur r h hr
    rw [updateRuleAt]
    cases hf : findChild cur l with
    | some c => exact trieOk_setChild l h (ih c r (trieOk_findChild h hf) hr)
    | none => exact h

theorem lookL_ruleOk : ∀ (ls : List String) (cur : TrieNode) (m w : Option Rule)
    (el i : Nat), trieOk cur = true → ruleOkOpt m = true → ruleOkOpt w = true →
    ruleOkOpt (lookL cur ls m w el i).1 = true ∧
    ruleOkOpt (lookL cur ls m w el i).2.1 = true := by
  intro ls
  induction ls with
  | nil =>
    intro cur m w el i _ hm hw
    rw [lookL]
    exact ⟨hm, hw⟩
  | cons l ls ih =>
    intro cur m w el i h hm hw
    rw [lookL]
    have hw' : ruleOkOpt (wildUpd cur w) = true := by
      unfold wildUpd
      cases hfw : findChild cur "*" with
      | some wc => simpa using ruleOkOpt_of_trieOk (trieOk_findChild h hfw)
      | none => simpa using hw
    cases hfc : findChild cur l with
    | some c =>
      have hc : trieOk c = true := trieOk_findChild h hfc
      have hm' : ruleOkOpt (exactUpd c m el i).1 = true := by
        unfold exactUpd
        cases hr : c.rule with
        | some r =>
          have := ruleOkOpt_of_trieOk hc
          rw [hr] at this
          by_cases ht : truthy r = true
          · simpa [ht] using this
          · simpa [ht] using hm
        | none => simpa using hm
      have hrec := ih c (exactUpd c m el i).1 (wildUpd cur w)
        (exactUpd c m el i).2 (i + 1) hc hm' hw'
      rcases hres : lookL c ls (exactUpd c m el i).1 (wildUpd cur w)
          (exactUpd c m el i).2 (i + 1) with ⟨rm, rwc, rel, rpath⟩
      dsimp only
      rw [hres] at hrec ⊢
      simpa using hrec
    | none =>
      exact ⟨hm, hw'⟩

theorem lookup_ruleOk {t : TrieNode} {d : String} {r : Rule} {path : List String}
    (h : trieOk t = true) (hl : lookup t d = .ok (r, path)) : ruleOk r = true := by
  unfold lookup at hl
  by_cases hd : (d == "") = true
  · rw [if_pos hd] at hl
    exact absurd hl (by simp)
  · rw [if_neg hd] at hl
    have hok := lookL_ruleOk (labelsOf d) t none none 0 0 h rfl rfl
    rcases hres : lookL t (labelsOf d) none none 0 0 with ⟨m, w, el, lpath⟩
    rw [hres] at hok hl
    rw [lookupFin] at hl
    split at hl
    · rcases hm : m with _ | mr
      · rw [hm] at hl
        simp only [Option.getD_none, Except.ok.injEq, Prod.mk.injEq] at hl
        rw [← hl.1]
        rfl
      · rw [hm] at hl hok
        simp only [Option.getD_some, Except.ok.injEq, Prod.mk.injEq] at hl
        rw [← hl.1]
        simpa using hok.1
    · split at hl
      · rcases hw : w with _ | wr
        · rw [hw] at hl
          simp only [Option.getD_none, Except.ok.injEq, Prod.mk.injEq] at hl
          rw [← hl.1]
          rfl
        · rw [hw] at hl hok
          simp only [Option.getD_some, Except.ok.injEq, Prod.mk.injEq] at hl
          rw [← hl.1]
          simpa using hok.2
      · simp only [Except.ok.injEq, Prod.mk.injEq] at hl
        rw [← hl.1]
        rfl

/-- C5 counterexample: a configuration carrying `block=/x.com/` and
`route=/x.com/10.0.0.1` is merged by `_merge_rules` into a single rule
carrying **both** `block` and `route`, and the startup
`build_domain_trie` stores that rule verbatim. -/
theorem c5_counterexample :
    (mergeRules [blockRule "x.com", routeRule "x.com" "10.0.0.1"]).all ruleOk =
      false ∧
    dhas (lookupRule (buildDomainTrie TrieNode.empty
        (mergeRules [blockRule "x.com", routeRule "x.com" "10.0.0.1"])) "x.com")
      "block" = true ∧
    dhas (lookupRule (buildDomainTrie TrieNode.empty
        (mergeRules [blockRule "x.com", routeRule "x.com" "10.0.0.1"])) "x.com")
      "route" = true := by
  refine ⟨by decide, by decide, by decide⟩

/-- C5 (amended): the runtime insert path preserves directive
exclusivity — a `cow_insert` of a rule that does not itself carry both
directives into a trie all of whose stored rules are exclusive yields
a trie all of whose stored rules are exclusive, and likewise for the
startup `insert` of a single parsed rule; the exception is the startup
merge `_merge_rules`, whose plain dict union can produce a stored rule
carrying both `block` and `route` (see the counterexample). -/
theorem c5_exclusivity_amended :
    (∀ (t : TrieNode) (d : String) (r : Rule) (t' : TrieNode) (sw : Bool),
        trieOk t = true → ruleOk r = true → cowInsert t d r = .ok (t', sw) →
        trieOk t' = true)
    ∧ (∀ (t : TrieNode) (d : String) (r : Rule),
        trieOk t = true → ruleOk r = true → trieOk (insert t d r) = true) := by
  constructor
  · intro t d r t' sw ht hr hc
    unfold cowInsert at hc
    cases hl : lookup t d with
    | error e => rw [hl] at hc; exact absurd hc (by simp)
    | ok p =>
      obtain ⟨existing, path⟩ := p
      rw [hl] at hc
      have hc2 : (if truthy existing = true then
          (Except.ok (updateRuleAt t path (cowMergedRule existing r), false) :
            Except Unit (TrieNode × Bool))
          else Except.ok (insertPath t (labelsOf d) r, true)) =
          Except.ok (t', sw) := hc
      have hex : ruleOk existing = true := lookup_ruleOk ht hl
      by_cases htr : truthy existing = true
      · rw [if_pos htr] at hc2
        simp only [Except.ok.injEq, Prod.mk.injEq] at hc2
        rw [← hc2.1]
        exact trieOk_updateRuleAt path t _ ht (ruleOk_cowMergedRule _ _ hex hr)
      · rw [if_neg htr] at hc2
        simp only [Except.ok.injEq, Prod.mk.injEq] at hc2
        rw [← hc2.1]
        exact trieOk_insertPath _ t r ht hr
  · intro t d r ht hr
    exact trieOk_insertPath _ t r ht hr

/-- Witness for C5 (amended): flipping `a.com` from block to route via
`cow_insert` keeps every stored rule exclusive. -/
theorem c5_witness :
    trieOk (insert TrieNode.empty "a.com" (blockRule "a.com")) = true ∧
    ruleOk (routeRule "a.com" "10.0.0.1") = true ∧
    trieOk (cowInsertTrie (insert TrieNode.empty "a.com" (blockRule "a.com"))
      "a.com" (routeRule "a.com" "10.0.0.1")) = true := by
  refine ⟨by decide, by decide, ?_⟩
  exact c5_exclusivity_amended.1 (insert TrieNode.empty "a.com" (blockRule "a.com"))
    "a.com" (routeRule "a.com" "10.0.0.1")
    (cowInsertTrie (insert TrieNode.empty "a.com" (blockRule "a.com"))
      "a.com" (routeRule "a.com" "10.0.0.1"))
    false (by decide) (by decide) (by rfl)

theorem forwardQuery_all_none (ups : List (Option Msg)) (h : ∀ x ∈ ups, x = none) :
    forwardQuery ups = { rcode := .servfail, answer := [] } := by
  induction ups with
  | nil => rfl
  | cons o rest ih =>
    have ho := h o (List.mem_cons_self o rest)
    subst ho
    simpa [forwardQuery] using ih (fun x hx => h x (List.mem_cons_of_mem _ hx))

/-- C10: `_add_cache` leaves the cache unchanged whenever the
response's rcode is not NOERROR; in particular the SERVFAIL response
synthesized when every upstream fails (and any NXDOMAIN answer) is
never stored in the cache. -/
theorem c10_add_cache_noerror_frame :
    (∀ (fw : Forwarder) (qname : String) (qtype : Nat) (resp : Msg) (ttlArg : Int),
        resp.rcode ≠ .noerror → addCache fw qname qtype resp ttlArg = fw)
    ∧ (∀ (ups : List (Option Msg)), (∀ x ∈ ups, x = none) →
        (forwardQuery ups).rcode = .servfail ∧
        ∀ (fw : Forwarder) (qname : String) (qtype : Nat) (ttlArg : Int),
          addCache fw qname qtype (forwardQuery ups) ttlArg = fw) := by
  have base : ∀ (fw : Forwarder) (qname : String) (qtype : Nat) (resp : Msg)
      (ttlArg : Int), resp.rcode ≠ .noerror →
      addCache fw qname qtype resp ttlArg = fw := by
    intro fw qname qtype resp ttlArg h
    unfold addCache
    have : (resp.rcode != Rcode.noerror) = true := by
      simpa [bne] using h
    simp [this]
  refine ⟨base, fun ups hups => ?_⟩
  rw [forwardQuery_all_none ups hups]
  exact ⟨rfl, fun fw qname qtype ttlArg => base _ _ _ _ _ (by simp)⟩

/-- Witness for C10 at a concrete NXDOMAIN response and a concrete
all-failed upstream list. -/
theorem c10_witness :
    (Msg.mk .nxdomain []).rcode ≠ .noerror ∧
    addCache ⟨900, []⟩ "x.com" rdA (Msg.mk .nxdomain []) (-1) = ⟨900, []⟩ ∧
    addCache ⟨900, []⟩ "x.com" rdA (forwardQuery [none, none]) (-1) = ⟨900, []⟩ := by
  refine ⟨by decide, c10_add_cache_noerror_frame.1 _ _ _ _ _ (by decide), ?_⟩
  exact (c10_add_cache_noerror_frame.2 [none, none] (by simp)).2 _ _ _ _

/-- C4 counterexample: with the program's default cache TTL of 900,
a NOERROR response with two A rrsets of TTLs 60 and 300 is cached
with TTL 900 (deadline now + 900s), not 300 as the claim states. -/
theorem c4_counterexample :
    cacheGet (addCache ⟨900, []⟩ "example.com" rdA
        ⟨.noerror, [⟨rdA, 60⟩, ⟨rdA, 300⟩]⟩ (-1)) ("example.com", rdA) =
      some (⟨.noerror, [⟨rdA, 60⟩, ⟨rdA, 300⟩]⟩, 900) ∧ (900 : Int) ≠ 300 :=
  ⟨rfl, by decide⟩

/-- C4 (amended): caching a NOERROR response with unspecified TTL
stores it under the key `(qname, qtype)` with TTL
`max(default cache TTL, maximum A-record TTL among answer rrsets)` —
the configured default is a floor, so the claim's `now + 300s` example
holds only when the default cache TTL is at most 300. -/
theorem c4_cache_ttl_amended (fw : Forwarder) (qname : String) (qtype : Nat)
    (resp : Msg) (h : resp.rcode = .noerror) :
    cacheGet (addCache fw qname qtype resp (-1)) (qname, qtype) =
      some (resp,
        (resp.answer.filterMap
          (fun rr => if rr.rdtype = rdA then some rr.ttl else none)).foldl
          max fw.cacheTtl) := by
  rw [cacheGet_addCache_self fw qname qtype resp (-1) h]
  simp [addCache_ttl_eq_max]

/-- Witness for C4 (amended): with default cache TTL 100 the derived
TTL is the A-record maximum 300. -/
theorem c4_witness :
    (Msg.mk .noerror [⟨rdA, 60⟩, ⟨rdA, 300⟩]).rcode = .noerror ∧
    cacheGet (addCache ⟨100, []⟩ "a.com" rdA
        (Msg.mk .noerror [⟨rdA, 60⟩, ⟨rdA, 300⟩]) (-1)) ("a.com", rdA) =
      some (Msg.mk .noerror [⟨rdA, 60⟩, ⟨rdA, 300⟩], 300) := by
  refine ⟨rfl, ?_⟩
  exact (c4_cache_ttl_amended ⟨100, []⟩ "a.com" rdA _ rfl).trans (by decide)

/-- C6: `purge_cache()` keeps exactly the entries whose TTL equals the
2³¹−1 sentinel: an entry survives the purge iff it was present and
pinned; every non-sentinel entry is removed. -/
theorem c6_purge_pin_invariance :
    ∀ (fw : Forwarder) (k : String × Nat) (m : Msg) (ttl : Int),
      ((k, (m, ttl)) ∈ (purgeCache fw).cache ↔
        ((k, (m, ttl)) ∈ fw.cache ∧ ttl = MAX_DNS_TTL)) := by
  intro fw k m ttl
  unfold purgeCache
  rw [purgeLoop_eq_filter]
  simp [List.mem_filter]

/-- C8 counterexample: removing a domain that is not in the trie
raises (`raise Exception(f"{domain} is not found in the trie")`)
instead of returning the claimed not-found `False`. -/
theorem c8_counterexample :
    cowRemove TrieNode.empty "a.com" none = .error () := rfl

/-- C8 (amended): for a missing domain `cow_remove` raises an
exception and the trie is unchanged; the caller
`PolicyService.remove_rule` catches it and converts it to the
not-found `False` result with the trie unchanged. -/
theorem c8_remove_missing_amended (t : TrieNode) (d : String)
    (dir : Option String) (h : domainExists t d = false) :
    cowRemove t d dir = .error () ∧ removeRule t d dir = (false, t) := by
  constructor
  · unfold cowRemove
    simp [h]
  · unfold removeRule cowRemove
    simp [h]

/-- Witness for C8 (amended) on the empty trie. -/
theorem c8_witness :
    domainExists TrieNode.empty "b.com" = false ∧
    (cowRemove TrieNode.empty "b.com" (some "block") = .error () ∧
      removeRule TrieNode.empty "b.com" (some "block") = (false, TrieNode.empty)) :=
  ⟨rfl, c8_remove_missing_amended TrieNode.empty "b.com" (some "block") rfl⟩

theorem traceStates_self_mem : ∀ (evs : List Ev) (t : TrieNode),
    t ∈ traceStates t evs := by
  intro evs
  induction evs with
  | nil => intro t; simp [traceStates]
  | cons ev rest ih =>
    intro t
    cases ev with
    | commit o => simp [traceStates]
    | query d => simpa [traceStates] using ih t

/-- C2 counterexample: `cow_insert` of a rule for a domain that
already bears a (truthy) rule takes the `_cow_update` path, which
assigns the merged rule to the matched node of the live trie and
performs no deep copy and no root-pointer swap — refuting "every
runtime trie mutation deep-copies the trie … and swaps the root
pointer". -/
theorem c2_counterexample :
    cowInsertSwapped (insert TrieNode.empty "a.com" (blockRule "a.com"))
      "a.com" (routeRule "a.com" "10.0.0.1") = some false := by decide

/-- C2 (amended): `cow_insert` deep-copies and swaps the root only
when the prior lookup finds no truthy rule; otherwise it updates the
matched node's rule in place.  Either way each mutation becomes
visible in one atomic assignment, so in the cooperative event loop a
lookup anywhere in a schedule of mutations observes one of the
committed trie states — never a partially modified trie. -/
theorem c2_lookup_sees_committed_state :
    ∀ (t : TrieNode) (evs : List Ev) (d : String) (r : Rule),
      (d, r) ∈ runTrace t evs →
      ∃ s ∈ traceStates t evs, lookupRule s d = r := by
  intro t evs
  induction evs generalizing t with
  | nil =>
    intro d r h
    simp [runTrace] at h
  | cons ev rest ih =>
    intro d r h
    cases ev with
    | commit o =>
      rw [runTrace] at h
      obtain ⟨s, hs, hl⟩ := ih (applyRt t o) d r h
      exact ⟨s, by simpa [traceStates] using Or.inr hs, hl⟩
    | query q =>
      rw [runTrace] at h
      rcases List.mem_cons.mp h with heq | hmem
      · obtain ⟨hd, hr⟩ := Prod.mk.injEq .. ▸ heq
        subst hd
        exact ⟨t, by simpa [traceStates] using traceStates_self_mem rest t,
          hr.symm⟩
      · obtain ⟨s, hs, hl⟩ := ih t d r hmem
        exact ⟨s, by simpa [traceStates] using hs, hl⟩

/-- Witness for C2 (amended): in a schedule inserting a block rule,
looking `a.com` up, flipping it to a route rule and looking it up
again, the first observation is a committed state's lookup result. -/
theorem c2_witness :
    ("a.com", blockRule "a.com") ∈
      runTrace TrieNode.empty
        [.commit (.rins "a.com" (blockRule "a.com")), .query "a.com",
         .commit (.rins "a.com" (routeRule "a.com" "10.0.0.1")), .query "a.com"] ∧
    ∃ s ∈ traceStates TrieNode.empty
        [.commit (.rins "a.com" (blockRule "a.com")), .query "a.com",
         .commit (.rins "a.com" (routeRule "a.com" "10.0.0.1")), .query "a.com"],
      lookupRule s "a.com" = blockRule "a.com" :=
  ⟨by decide, c2_lookup_sees_committed_state _ _ _ _ (by decide)⟩

/-- C3: for every A query whose matched rule contains `block`,
`handle_request` sends exactly one response to the client — the
synthesized NXDOMAIN — and never the cached or upstream answer, for
any cache state (including a present entry for `(name, A)`), any
upstream outcome and whether or not a callback is registered. -/
theorem c3_block_sends_nxdomain_only (fw : Forwarder) (trie : TrieNode)
    (qname : String) (ups : List (Option Msg)) (hasCb : Bool)
    (hb : dhas (lookupRule trie qname) "block" = true) :
    (handleRequest fw trie qname rdA ups hasCb).sends = [makeNX] := by
  unfold handleRequest
  cases hl : lookup trie qname with
  | error e =>
    have hempty : lookupRule trie qname = [] := by
      unfold lookupRule
      rw [hl]
    rw [hempty] at hb
    simp [dhas, dget?] at hb
  | ok p =>
    obtain ⟨rule, path⟩ := p
    have hrule : lookupRule trie qname = rule := by
      unfold lookupRule
      rw [hl]
    rw [hrule] at hb
    have hAA : (rdA == rdAAAA) = false := by decide
    cases hc : cacheGet fw (qname, rdA) with
    | some cv =>
      obtain ⟨cm, cttl⟩ := cv
      cases hcb : (dhas rule "dbr" && !hasCb) with
      | true => simp [hAA, hc, hb, hcb]
      | false => simp [hAA, hc, hb, hcb]
    | none =>
      cases hcb : (dhas rule "dbr" && !hasCb) with
      | true => simp [hAA, hc, hb, hcb]
      | false => simp [hAA, hc, hb, hcb]

/-- Witness for C3: a blocked domain with a live cache entry for the
same `(name, A)` key still gets exactly the NXDOMAIN response. -/
theorem c3_witness :
    dhas (lookupRule (insert TrieNode.empty "ads.example.com"
        (blockRule "ads.example.com")) "ads.example.com") "block" = true ∧
    (handleRequest
        ⟨900, [(("ads.example.com", rdA), (⟨.noerror, [⟨rdA, 5⟩]⟩, 60))]⟩
        (insert TrieNode.empty "ads.example.com" (blockRule "ads.example.com"))
        "ads.example.com" rdA [some ⟨.noerror, [⟨rdA, 30⟩]⟩] true).sends =
      [makeNX] :=
  ⟨by decide, c3_block_sends_nxdomain_only _ _ _ _ _ (by decide)⟩

/-! ## Lookup precedence versus the spec's lookup (C1) -/

theorem splitChAux_ne_nil (sep : Char) : ∀ (cs acc : List Char),
    splitChAux sep cs acc ≠ [] := by
  intro cs
  induction cs with
  | nil => intro acc; simp [splitChAux]
  | cons c rest ih =>
    intro acc
    rw [splitChAux]
    by_cases hc : c = sep
    · simp [hc]
    · simpa [hc] using ih (c :: acc)

theorem labelsOf_ne_nil (d : String) : labelsOf d ≠ [] := by
  unfold labelsOf
  simpa using splitChAux_ne_nil '.' d.data []

theorem wildHere_truthy {cur : TrieNode} {r : Rule} (h : r ∈ wildHere cur) :
    truthy r = true := by
  unfold wildHere at h
  cases hfw : findChild cur "*" with
  | none => rw [hfw] at h; simp at h
  | some wc =>
    rw [hfw] at h
    dsimp only at h
    cases hwr : wc.rule with
    | none => rw [hwr] at h; simp at h
    | some r0 =>
      rw [hwr] at h
      dsimp only at h
      by_cases ht : truthy r0 = true
      · rw [if_pos ht] at h
        simp at h
        rwa [h]
      · rw [if_neg ht] at h
        simp at h

theorem wildSeen_truthy : ∀ (ls : List String) (cur : TrieNode) (r : Rule),
    r ∈ wildSeen cur ls → truthy r = true := by
  intro ls
  induction ls with
  | nil => intro cur r h; simp [wildSeen] at h
  | cons l ls ih =>
    intro cur r h
    rw [wildSeen] at h
    cases hfc : findChild cur l with
    | none =>
      rw [hfc] at h
      exact wildHere_truthy h
    | some c =>
      rw [hfc] at h
      rcases List.mem_append.mp h with h1 | h2
      · exact wildHere_truthy h1
      · exact ih c r h2

theorem foldl_const_some : ∀ (lst : List Rule) (w0 : Option Rule),
    lst.foldl (fun _ r => some r) w0 =
      (match lst.getLast? with | some r => some r | none => w0) := by
  intro lst
  induction lst with
  | nil => intro w0; rfl
  | cons r rest ih =>
    intro w0
    rw [List.foldl_cons, ih (some r)]
    cases rest with
    | nil => rfl
    | cons r2 rest2 =>
      rw [List.getLast?_cons_cons]
      cases hl : (r2 :: rest2).getLast? with
      | some x => rfl
      | none => exact absurd (List.getLast?_eq_none_iff.mp hl) (by simp)

/-- Under the loop invariant that every `*` child seen so far bears a
non-empty rule, the loop's wildcard candidate equals the fold of the
spec's wildcard-rules-seen list over the incoming candidate. -/
theorem lookL_wild : ∀ (ls : List String) (cur : TrieNode) (m w : Option Rule)
    (el i : Nat), wildStarOkOnPath cur ls = true →
    (lookL cur ls m w el i).2.1 =
      (wildSeen cur ls).foldl (fun _ r => some r) w := by
  intro ls
  induction ls with
  | nil => intro cur m w el i _; rfl
  | cons l ls ih =>
    intro cur m w el i hok
    rw [wildStarOkOnPath, Bool.and_eq_true] at hok
    obtain ⟨h1, h2⟩ := hok
    have hW : (wildHere cur).foldl (fun _ r => some r) w = wildUpd cur w := by
      unfold wildHere wildUpd
      cases hfw : findChild cur "*" with
      | none => rfl
      | some wc =>
        rw [hfw] at h1
        dsimp only at h1
        cases hwr : wc.rule with
        | none => rw [hwr] at h1; exact absurd h1 (by simp [truthyOpt])
        | some r =>
          rw [hwr] at h1
          dsimp only
          rw [hwr]
          dsimp only
          rw [if_pos (show truthy r = true from h1)]
          rfl
    rw [lookL, wildSeen]
    cases hfc : findChild cur l with
    | none =>
      dsimp only
      exact hW.symm
    | some c =>
      rw [hfc] at h2
      have hrec := ih c (exactUpd c m el i).1 (wildUpd cur w)
        (exactUpd c m el i).2 (i + 1) h2
      rcases hres : lookL c ls (exactUpd c m el i).1 (wildUpd cur w)
          (exactUpd c m el i).2 (i + 1) with ⟨rm, rwc, rel, rpath⟩
      rw [hres] at hrec
      dsimp only
      rw [hres]
      dsimp only
      rw [List.foldl_append, hW]
      exact hrec

/-- The loop's exact candidate realises the full-exact-match test:
the final `matched_rule` is truthy with `exact_len` equal to the total
label count exactly when a truthy rule is stored at the full label
path, and in that case `matched_rule` is that rule. -/
theorem lookL_exact : ∀ (ls : List String), ls ≠ [] →
    ∀ (cur : TrieNode) (m w : Option Rule) (el i : Nat), el ≤ i →
    ((truthyOpt (lookL cur ls m w el i).1 &&
        (i + ls.length == (lookL cur ls m w el i).2.2.1)) =
      truthyOpt (ruleAt cur ls))
    ∧ (truthyOpt (ruleAt cur ls) = true →
        (lookL cur ls m w el i).1 = ruleAt cur ls) := by
  intro ls
  induction ls with
  | nil => intro h; exact absurd rfl h
  | cons l ls ih =>
    intro _ cur m w el i hel
    rw [lookL]
    cases hfc : findChild cur l with
    | none =>
      dsimp only
      rw [ruleAt, hfc]
      have hne : (i + (l :: ls).length == el) = false :=
        beq_eq_false_iff_ne.mpr (by simp only [List.length_cons]; omega)
      constructor
      · rw [hne, Bool.and_false]
        rfl
      · intro hcontra
        simp [truthyOpt] at hcontra
    | some c =>
      dsimp only
      rw [ruleAt, hfc]
      dsimp only
      cases ls with
      | nil =>
        rw [lookL]
        dsimp only
        rw [ruleAt]
        cases hr : c.rule with
        | none =>
          rw [exactUpd, hr]
          dsimp only
          have hne : (i + [l].length == el) = false :=
            beq_eq_false_iff_ne.mpr (by simp only [List.length_singleton]; omega)
          constructor
          · rw [hne, Bool.and_false]
            rfl
          · intro hcontra
            simp [truthyOpt] at hcontra
        | some r =>
          rw [exactUpd, hr]
          dsimp only
          by_cases ht : truthy r = true
          · rw [if_pos ht]
            constructor
            · simp [truthyOpt, ht]
            · intro _
              rfl
          · rw [if_neg ht]
            dsimp only
            have hne : (i + [l].length == el) = false :=
              beq_eq_false_iff_ne.mpr (by simp only [List.length_singleton]; omega)
            constructor
            · rw [hne, Bool.and_false]
              simp [truthyOpt, ht]
            · intro hcontra
              rw [truthyOpt] at hcontra
              exact absurd hcontra ht
      | cons l2 ls2 =>
        have hel' : (exactUpd c m el i).2 ≤ i + 1 := by
          unfold exactUpd
          cases hr : c.rule with
          | none =>
            dsimp only
            omega
          | some r =>
            dsimp only
            by_cases ht : truthy r = true
            · rw [if_pos ht]
            · rw [if_neg ht]
              dsimp only
              omega
        have hrec := ih (by simp) c (exactUpd c m el i).1 (wildUpd cur w)
          (exactUpd c m el i).2 (i + 1) hel'
        rcases hres : lookL c (l2 :: ls2) (exactUpd c m el i).1 (wildUpd cur w)
            (exactUpd c m el i).2 (i + 1) with ⟨rm, rwc, rel, rpath⟩
        rw [hres] at hrec
        dsimp only at hrec ⊢
        have hlen : i + (l :: l2 :: ls2).length = (i + 1) + (l2 :: ls2).length := by
          simp [List.length_cons]
          omega
        rw [hlen]
        exact hrec

/-- C1 counterexample: insert wildcard block rules for `*.com` and
`*.google.com`, then remove the `*.google.com` rule (a supported REST
operation, which keeps the now rule-less `*` node).  Looking up
`x.google.com` traverses past the `*.com` wildcard rule, but the loop
overwrites its wildcard candidate with the rule-less deeper `*` child,
so `lookup` returns the empty rule while the claim's precedence
(deepest wildcard rule seen) demands the `*.com` block rule. -/
theorem c1_counterexample :
    specLookup ((removeRule
        (insert (insert TrieNode.empty "*.com" (blockRule "*.com"))
          "*.google.com" (blockRule "*.google.com"))
        "*.google.com" none).2) "x.google.com" = blockRule "*.com" ∧
    lookupRule ((removeRule
        (insert (insert TrieNode.empty "*.com" (blockRule "*.com"))
          "*.google.com" (blockRule "*.google.com"))
        "*.google.com" none).2) "x.google.com" = [] ∧
    blockRule "*.com" ≠ ([] : Rule) := by
  refine ⟨by decide, by decide, by decide⟩

/-- C1 (amended): for every non-empty domain `D`, provided every `*`
child encountered while traversing `D`'s path bears a non-empty rule
(true in particular of every trie whose `*` nodes all carry rules),
`lookup(D)` returns by the spec's precedence: the rule stored at
exactly `D`'s full label path if one is, else the deepest `*`-child
rule seen along the traversed path, else the empty rule.  Without
that proviso the loop's single wildcard candidate can be overwritten
by a rule-less `*` child (see the counterexample). -/
theorem c1_lookup_precedence_amended (t : TrieNode) (d : String)
    (hd : d ≠ "") (hw : wildStarOkOnPath t (labelsOf d) = true) :
    lookupRule t d = specLookup t d := by
  have hdb : (d == "") = false := beq_eq_false_iff_ne.mpr hd
  have hnil : labelsOf d ≠ [] := labelsOf_ne_nil d
  have hex := lookL_exact (labelsOf d) hnil t none none 0 0 (Nat.le_refl 0)
  have hwl := lookL_wild (labelsOf d) t none none 0 0 hw
  unfold lookupRule lookup
  rw [if_neg (show ¬((d == "") = true) by simp [hdb])]
  rcases hres : lookL t (labelsOf d) none none 0 0 with ⟨m, w, el, lpath⟩
  rw [hres] at hex hwl
  dsimp only at hex hwl
  rw [Nat.zero_add] at hex
  rw [foldl_const_some] at hwl
  rw [lookupFin]
  cases hra : truthyOpt (ruleAt t (labelsOf d)) with
  | true =>
    have hcond : (truthyOpt m && ((labelsOf d).length == el)) = true := by
      rw [hex.1, hra]
    rw [if_pos hcond]
    have hm := hex.2 hra
    cases hrat : ruleAt t (labelsOf d) with
    | none =>
      rw [hrat] at hra
      simp [truthyOpt] at hra
    | some r =>
      rw [hrat] at hm hra
      rw [hm]
      unfold specLookup
      rw [hrat]
      dsimp only
      rw [if_pos (show truthy r = true from hra)]
      rfl
  | false =>
    have hcond : (truthyOpt m && ((labelsOf d).length == el)) = false := by
      rw [hex.1, hra]
    rw [hcond]
    rw [if_neg (by simp)]
    cases hlast : (wildSeen t (labelsOf d)).getLast? with
    | some r =>
      rw [hlast] at hwl
      dsimp only at hwl
      have htr : truthy r = true :=
        wildSeen_truthy (labelsOf d) t r (List.mem_of_mem_getLast? hlast)
      rw [hwl]
      rw [if_pos (show truthyOpt (some r) = true from htr)]
      unfold specLookup
      cases hrat : ruleAt t (labelsOf d) with
      | none =>
        dsimp only
        rw [hlast]
      | some r' =>
        rw [hrat] at hra
        dsimp only
        rw [if_neg (by simp [truthyOpt] at hra ⊢; exact hra)]
        rw [hlast]
    | none =>
      rw [hlast] at hwl
      dsimp only at hwl
      rw [hwl]
      rw [if_neg (by simp [truthyOpt])]
      unfold specLookup
      cases hrat : ruleAt t (labelsOf d) with
      | none =>
        dsimp only
        rw [hlast]
        rfl
      | some r' =>
        rw [hrat] at hra
        dsimp only
        rw [if_neg (by simp [truthyOpt] at hra ⊢; exact hra)]
        rw [hlast]
        rfl

/-- Witness for C1 (amended) on a trie holding `*.google.com` and
`mail.google.com`, looked up at `x.google.com` (a wildcard match). -/
theorem c1_witness :
    "x.google.com" ≠ "" ∧
    wildStarOkOnPath
      (insert (insert TrieNode.empty "*.google.com" (blockRule "*.google.com"))
        "mail.google.com" (routeRule "mail.google.com" "10.0.0.1"))
      (labelsOf "x.google.com") = true ∧
    lookupRule
      (insert (insert TrieNode.empty "*.google.com" (blockRule "*.google.com"))
        "mail.google.com" (routeRule "mail.google.com" "10.0.0.1"))
      "x.google.com" =
    specLookup
      (insert (insert TrieNode.empty "*.google.com" (blockRule "*.google.com"))
        "mail.google.com" (routeRule "mail.google.com" "10.0.0.1"))
      "x.google.com" :=
  ⟨by decide, by decide, c1_lookup_precedence_amended _ _ (by decide) (by decide)⟩

/-- C7 (code bug): with only the wildcard rule `*.example.com ↦ block`
stored, `cow_insert("api.example.com", route-rule)` finds the truthy
wildcard match and takes the `_cow_update` path, which writes the
merged rule to the node where traversal stopped (`example.com`) —
without any root swap — and leaves the wildcard rule in place; a
subsequent `lookup("api.example.com")` still returns the wildcard
block rule instead of the inserted route rule, and `example.com` now
wrongly answers with the merged route rule. -/
theorem c7_roundtrip_failure :
    cowInsertSwapped
        (insert TrieNode.empty "*.example.com" (blockRule "*.example.com"))
        "api.example.com" (routeRule "api.example.com" "10.0.0.1") =
      some false ∧
    lookupRule
        (cowInsertTrie
          (insert TrieNode.empty "*.example.com" (blockRule "*.example.com"))
          "api.example.com" (routeRule "api.example.com" "10.0.0.1"))
        "api.example.com" =
      blockRule "*.example.com" ∧
    blockRule "*.example.com" ≠ routeRule "api.example.com" "10.0.0.1" ∧
    lookupRule
        (cowInsertTrie
          (insert TrieNode.empty "*.example.com" (blockRule "*.example.com"))
          "api.example.com" (routeRule "api.example.com" "10.0.0.1"))
        "example.com" =
      [("domain", .s "api.example.com"), ("dbr", .b true),
       ("route", .s "10.0.0.1")] := by
  refine ⟨by decide, by decide, by decide, by decide⟩

/-- The success flag of `add_rule` (`none` would be a raised
exception). -/
def addRuleOk (t : TrieNode) (directive domain value : String) : Option Bool :=
  match addRule t directive domain value with
  | .ok p => some p.1
  | .error _ => none

/-- C9 counterexample: the value `"::1"` is not an IPv4 literal, yet
`_validate_rule_params` accepts it for `route` (Python
`ipaddress.ip_address` also parses IPv6), so `add_rule` succeeds
where the claim says it must fail. -/
theorem c9_counterexample :
    isValidIPv4 "::1" = false ∧
    validateRuleParams "route" "x.com" "::1" = true ∧
    addRuleOk TrieNode.empty "route" "x.com" "::1" = some true := by
  refine ⟨by decide, by decide, by decide⟩

/-- C9 (amended): REST rule addition validates `value` as an IPv4
**or IPv6** literal for the route, server and address directives, and
ignores the value for block (no value required). -/
theorem c9_validation_amended :
    ∀ (d v : String),
      validateRuleParams "block" d v = (!d.data.isEmpty && isValidDomain d) ∧
      validateRuleParams "route" d v =
        (!d.data.isEmpty && isValidDomain d && isValidIp v) ∧
      validateRuleParams "server" d v =
        (!d.data.isEmpty && isValidDomain d && isValidIp v) ∧
      validateRuleParams "address" d v =
        (!d.data.isEmpty && isValidDomain d && isValidIp v) ∧
      isValidIp v = (isValidIPv4 v || isValidIPv6 v) := by
  intro d v
  unfold validateRuleParams
  refine ⟨?_, ?_, ?_, ?_, rfl⟩ <;>
    cases hd : d.data.isEmpty <;> cases hv : isValidDomain d <;> simp [hd, hv]

end DnsPolicy
